import Mathlib

/-!
Verification of the TradeTitan institutional-tracking core
(`datafetcher/institutional_tracker.py` and
`datafetcher/simplified_institutional.py`) against its natural-language
specification.  The Python code is shallowly embedded: machine floats are
modelled by `ℚ` (every numeric literal exercised here is exactly
representable), HTTP fetches by an explicit outcome datatype
(`FetchOutcome`), raised-and-caught exceptions by `Except`/`Option`
plumbing that mirrors the `try`/`except` blocks of the source, and the
`time.sleep` throttling by an explicit event trace.
-/

namespace TradeTitan

/-! ## Digit strings

Rendering and parsing of decimal digit strings, used to model Python's
`str.split('-')`, `int(...)` and `float(...)` on the strings this code
feeds them. -/

/-- The character for a decimal digit `d < 10`. -/
def digitChar (d : ℕ) : Char := Char.ofNat (48 + d)

/-- Numeric value of a digit list (big-endian), mirroring how Python
reads a run of decimal digits.  Leading zeros are allowed. -/
def digitsToNat (l : List Char) : ℕ :=
  l.foldl (fun a c => 10 * a + (c.toNat - 48)) 0

/-- Parse a nonempty all-digit character list, else `none`.  This models
Python `int(s)` on the component strings produced by splitting a date of
the form `YYYY-MM-DD` (no sign, no whitespace). -/
def parseNatL (l : List Char) : Option ℕ :=
  if l ≠ [] ∧ l.all Char.isDigit then some (digitsToNat l) else none

/-- Big-endian decimal digit characters of `n`, empty for `0`; the fuel
(first argument) only makes the recursion structural, and `n` units of it
always suffice. -/
def natCharsFuel : ℕ → ℕ → List Char
  | 0, _ => []
  | _, 0 => []
  | f + 1, n + 1 => natCharsFuel f ((n + 1) / 10) ++ [digitChar ((n + 1) % 10)]

/-- Big-endian decimal digit characters of `n` (empty for `0`). -/
def natChars (n : ℕ) : List Char := natCharsFuel n n

/-- Zero-pad the decimal rendering of `n` to width `k`, as in the
`YYYY-MM-DD` date strings served by the filing archive. -/
def padChars (k n : ℕ) : List Char :=
  List.replicate (k - (natChars n).length) '0' ++ natChars n

/-- The ISO date string `YYYY-MM-DD` for calendar date `(y, m, d)`. -/
def isoDate (y m d : ℕ) : String :=
  ⟨padChars 4 y ++ '-' :: (padChars 2 m ++ '-' :: padChars 2 d)⟩

/-- Lexicographic order on character lists by code point: Python string
comparison, under which ISO date strings sort chronologically. -/
def lexLE : List Char → List Char → Bool
  | [], _ => true
  | _ :: _, [] => false
  | a :: as, b :: bs =>
    if a.toNat < b.toNat then true
    else if b.toNat < a.toNat then false
    else lexLE as bs

/-- Python `a <= b` on strings. -/
def strLE (a b : String) : Prop := lexLE a.data b.data = true

instance : DecidableRel strLE := fun a b =>
  inferInstanceAs (Decidable (lexLE a.data b.data = true))

/-- Split a character list on a separator character, mirroring Python
`str.split(sep)` for a single-character separator: `splitOnC c l` always
returns at least one (possibly empty) component. -/
def splitOnC (c : Char) : List Char → List (List Char)
  | [] => [[]]
  | a :: t =>
    match splitOnC c t, a == c with
    | r, true => [] :: r
    | [], false => [[a]]
    | h :: r, false => (a :: h) :: r

/-! ## Python `float` on stripped numeric strings

`_parse_xml_info_table` coerces via
`float(re.sub(r'[^\d.-]', '', s))` inside a `try`.  After the `re.sub`
the string contains only digits, `.` and `-`; on that alphabet Python's
`float` accepts an optional leading minus sign, then digits with at most
one decimal point and at least one digit. -/

/-- Value of an integer-part/fraction-part digit pair. -/
def fracVal (ip fp : List Char) : ℚ :=
  (digitsToNat ip : ℚ) + (digitsToNat fp : ℚ) / (10 : ℚ) ^ fp.length

/-- Python `float` on an unsigned string over the alphabet `{0-9, ., -}`:
digits with at most one `.` and at least one digit in total. -/
def pyFloatPos (l : List Char) : Option ℚ :=
  match splitOnC '.' l with
  | [ip] =>
    if ip ≠ [] ∧ ip.all Char.isDigit then some ((digitsToNat ip : ℚ)) else none
  | [ip, fp] =>
    if (ip ≠ [] ∨ fp ≠ []) ∧ ip.all Char.isDigit ∧ fp.all Char.isDigit then
      some (fracVal ip fp)
    else none
  | _ => none

/-- Python `float` on a string over the alphabet `{0-9, ., -}`:
one optional leading minus sign, then `pyFloatPos`; anything else
raises, modelled as `none`. -/
def pyFloatQ (s : String) : Option ℚ :=
  match s.data with
  | '-' :: rest => (pyFloatPos rest).map Neg.neg
  | l => pyFloatPos l

/-- `re.sub(r'[^\d.-]', '', s)`: keep only digits, `.` and `-`. -/
def stripNumeric (s : String) : String :=
  ⟨s.data.filter fun c => c.isDigit || c == '.' || c == '-'⟩

/-- Single-string numeric coercion of `_parse_xml_info_table`:
`float(re.sub(r'[^\d.-]', '', s))`, with the enclosing handler turning
any coercion failure into `0`. -/
def coerceNum (s : String) : ℚ :=
  (pyFloatQ (stripNumeric s)).getD 0

/-- The shared-handler coercion of `_parse_xml_info_table` lines 250-255:
`shares_num = float(re.sub(...)); value_num = float(re.sub(...)) * 1000`
inside one `try`, whose `except` sets **both** to `0`.  The market value
is scaled by 1000 ("Values typically in thousands"). -/
def coercePair (sh va : String) : ℚ × ℚ :=
  match pyFloatQ (stripNumeric sh), pyFloatQ (stripNumeric va) with
  | some a, some b => (a, b * 1000)
  | _, _ => (0, 0)

/-! ## Ticker / CUSIP roster -/

/-- `self.ticker_to_cusip` of `InstitutionalTracker.__init__`. -/
def tickerToCusipTable : List (String × String) :=
  [("NVDA", "67066G104"), ("AMZN", "023135106"), ("GOOGL", "02079K305"),
   ("MSFT", "594918104"), ("AAPL", "037833100"), ("TSLA", "88160R101")]

/-- `self.target_tickers` of `InstitutionalTracker.__init__`. -/
def defaultTargetTickers : List String :=
  ["NVDA", "AMZN", "GOOGL", "MSFT", "AAPL", "TSLA"]

/-- `self.ticker_to_cusip.get(ticker, '')`. -/
def tickerToCusip (t : String) : String :=
  ((tickerToCusipTable.find? fun p => p.1 == t).map Prod.snd).getD ""

/-- `_cusip_to_ticker`: reverse lookup in the roster, `''` if absent. -/
def cusipToTicker (c : String) : String :=
  ((tickerToCusipTable.find? fun p => p.2 == c).map Prod.fst).getD ""

/-! ## Substring matching (Python `in` on strings) -/

/-- `startsWithL pat l`: `pat` is an initial segment of `l`. -/
def startsWithL : List Char → List Char → Bool
  | [], _ => true
  | _ :: _, [] => false
  | p :: ps, h :: hs => p == h && startsWithL ps hs

/-- `containsL pat l`: `pat` occurs contiguously in `l`
(Python `pat in l`, in particular the empty pattern always occurs). -/
def containsL (pat : List Char) : List Char → Bool
  | [] => startsWithL pat []
  | h :: hs => startsWithL pat (h :: hs) || containsL pat hs

/-- Python `str.lower()` (ASCII case mapping suffices for tickers and
filing text). -/
def toLowerStr (s : String) : String := ⟨s.data.map Char.toLower⟩

/-- Case-insensitive substring test, `needle.lower() in hay.lower()`. -/
def containsCI (needle hay : String) : Bool :=
  containsL (toLowerStr needle).data (toLowerStr hay).data

/-! ## The parser cascade (`parse_13f_holdings` and its two parsers) -/

/-- One canonical raw holding as emitted by the two parsing strategies
(the dict built at `institutional_tracker.py` lines 261-267 and 303-310).
The full-text fallback additionally stores the matched line under
`raw_line`. -/
structure Holding where
  security_name : String
  cusip : String
  ticker : String
  shares : ℚ
  market_value : ℚ
  raw_line : Option String := none
deriving DecidableEq, Repr

/-- One `<infoTable>`-like tag of the structured information table, after
BeautifulSoup tag matching: the four `find` results of
`_parse_xml_info_table` lines 238-241 (each `none` when the tag is
absent), already reduced to their `get_text(strip=True)` strings. -/
structure RawEntry where
  name : Option String
  cusip : Option String
  shares : Option String
  value : Option String
deriving DecidableEq, Repr

/-- `_parse_xml_info_table` over the matched tag entries: an entry is kept
only when both a name tag and a CUSIP tag are present; share and value
strings default to `'0'` when their tags are absent; numbers go through
the shared-handler coercion `coercePair`; the holding is retained when the
target list is empty (Python `not target_tickers`), the resolved ticker is
a target, or some target occurs case-insensitively in the security name. -/
def parseXmlInfoTable (entries : List RawEntry) (targets : List String) :
    List Holding :=
  entries.filterMap fun e =>
    match e.name, e.cusip with
    | some nm, some cu =>
      let sh := e.shares.getD "0"
      let va := e.value.getD "0"
      let p := coercePair sh va
      let tk := cusipToTicker cu
      if targets.isEmpty || targets.contains tk ||
          targets.any fun t => containsCI t nm then
        some { security_name := nm, cusip := cu, ticker := tk,
               shares := p.1, market_value := p.2 }
      else none
    | _, _ => none

/-! ### The numeric-token scanner of `_extract_holdings_from_text`

`re.findall(r'\d+(?:,\d{3})*(?:\.\d+)?', line)`: a token is a maximal
digit run, then greedily repeated groups of a comma followed by exactly
three digits, then optionally a decimal point followed by a digit run. -/

/-- Match `(?:,\d{3})*` greedily at the front of the list, returning the
matched characters and the remainder. -/
def matchGroups : List Char → List Char × List Char
  | ',' :: a :: b :: c :: rest =>
    if a.isDigit && b.isDigit && c.isDigit then
      let r := matchGroups rest
      (',' :: a :: b :: c :: r.1, r.2)
    else ([], ',' :: a :: b :: c :: rest)
  | l => ([], l)

/-- Match `(?:\.\d+)?` at the front of the list. -/
def matchFrac : List Char → List Char × List Char
  | '.' :: rest =>
    match rest.takeWhile Char.isDigit with
    | [] => ([], '.' :: rest)
    | ds => ('.' :: ds, rest.dropWhile Char.isDigit)
  | l => ([], l)

/-- Match one full number token starting at digit `c`. -/
def matchNum (c : Char) (rest : List Char) : List Char × List Char :=
  let ds := rest.takeWhile Char.isDigit
  let r1 := rest.dropWhile Char.isDigit
  let g := matchGroups r1
  let f := matchFrac g.2
  (c :: ds ++ g.1 ++ f.1, f.2)

/-- Scan for all (leftmost, non-overlapping) number tokens.  Each step
consumes at least one character, so fuel equal to the input length
suffices; the fuel only makes the recursion structural. -/
def numsFromFuel : ℕ → List Char → List (List Char)
  | 0, _ => []
  | _ + 1, [] => []
  | fuel + 1, c :: rest =>
    if c.isDigit then
      let m := matchNum c rest
      m.1 :: numsFromFuel fuel m.2
    else numsFromFuel fuel rest

/-- `re.findall(r'\d+(?:,\d{3})*(?:\.\d+)?', s)`. -/
def findNumbers (s : String) : List String :=
  (numsFromFuel s.data.length s.data).map fun l => ⟨l⟩

/-- `tok.replace(',', '')` followed by `float(...)`; tokens produced by
the scanner always parse, so the `getD` default is never reached. -/
def coerceTok (tok : String) : ℚ :=
  (pyFloatQ ⟨tok.data.filter fun c => c ≠ ','⟩).getD 0

/-- Python `str.strip()` (ASCII whitespace suffices for filing text). -/
def stripWS (s : String) : String :=
  ⟨((s.data.dropWhile Char.isWhitespace).reverse.dropWhile
      Char.isWhitespace).reverse⟩

/-- `_extract_holdings_from_text`: split the filing text into lines; for
each stripped nonempty line and each target ticker occurring in the line
(the three regex patterns together amount to a case-insensitive substring
test), extract the number tokens; with at least one token, emit a holding
whose shares are the first token and whose market value is the last token
times 1000 when there are at least two tokens, else 0.  An empty target
list falls back to the default roster (`target_tickers or
self.target_tickers`). -/
def extractHoldingsFromText (filingText : String) (targets : List String) :
    List Holding :=
  let ts := if targets.isEmpty then defaultTargetTickers else targets
  (splitOnC '\n' filingText.data).flatMap fun rawLine =>
    let line := stripWS ⟨rawLine⟩
    if line = "" then []
    else
      ts.filterMap fun ticker =>
        if containsCI ticker line then
          match findNumbers line with
          | [] => none
          | n0 :: rest =>
            some { security_name := line,
                   cusip := tickerToCusip ticker,
                   ticker := ticker,
                   shares := coerceTok n0,
                   market_value :=
                     if 1 < (n0 :: rest).length then
                       coerceTok ((n0 :: rest).getLast (by simp)) * 1000
                     else 0,
                   raw_line := some line }
        else none

/-! ### The three-strategy cascade -/

/-- The three document-retrieval strategies, in cascade order. -/
inductive Strategy | infotable | primaryDoc | fullText
deriving DecidableEq, Repr

/-- Outcome of one `requests.get`: either the call raises
(connection error, timeout, ...) or it returns a response with a status
code and a body. -/
inductive FetchOutcome (α : Type) where
  | exn : FetchOutcome α
  | resp (status : ℕ) (body : α) : FetchOutcome α
deriving DecidableEq

/-- The three fetches `parse_13f_holdings` can issue for one filing.  The
two XML documents are carried in already-tag-matched form (BeautifulSoup
itself never raises on arbitrary input; a document without matching tags
is the empty entry list). -/
structure ParseEnv where
  infotable : FetchOutcome (List RawEntry)
  primaryDoc : FetchOutcome (List RawEntry)
  fullText : FetchOutcome String

/-- `parse_13f_holdings`, returning the holdings together with the list of
strategies whose fetch was actually issued.  The whole body sits in one
`try`: a raising fetch jumps to the `except`, which returns the current
(empty) `holdings`; a response with a non-200 status or an empty parse
falls through to the next strategy. -/
def parse13fHoldings (env : ParseEnv) (targets : List String) :
    List Holding × List Strategy :=
  match env.infotable with
  | .exn => ([], [.infotable])
  | .resp s1 d1 =>
    let h1 := if s1 = 200 then parseXmlInfoTable d1 targets else []
    if h1 ≠ [] then (h1, [.infotable])
    else
      match env.primaryDoc with
      | .exn => ([], [.infotable, .primaryDoc])
      | .resp s2 d2 =>
        let h2 := if s2 = 200 then parseXmlInfoTable d2 targets else []
        if h2 ≠ [] then (h2, [.infotable, .primaryDoc])
        else
          match env.fullText with
          | .exn => ([], [.infotable, .primaryDoc, .fullText])
          | .resp s3 d3 =>
            let h3 := if s3 = 200 then extractHoldingsFromText d3 targets
                      else []
            (h3, [.infotable, .primaryDoc, .fullText])

/-! ## The filing index crawler -/

/-- Date-component helpers, modelling Python
`int(filing_date.split('-')[0])` and `int(filing_date.split('-')[1])`
(with `none` for the `ValueError`/`IndexError` cases). -/
def yearOfDate (s : String) : Option ℕ :=
  match splitOnC '-' s.data with
  | c :: _ => parseNatL c
  | [] => none

/-- Second `-`-separated component of a date string, parsed. -/
def monthOfDate (s : String) : Option ℕ :=
  ((splitOnC '-' s.data)[1]?).bind parseNatL

/-- The quarter string `f"Q{((month - 1) // 3) + 1}"`. -/
def quarterString (m : ℕ) : String :=
  ⟨'Q' :: natChars ((m - 1) / 3 + 1)⟩

/-- The parallel arrays of one filing-index object, as returned by the
submissions endpoint (`{form[], accessionNumber[], filingDate[]}`). -/
structure FilingData where
  form : List String
  accessionNumber : List String
  filingDate : List String
deriving DecidableEq, Repr

/-- One retained filing-index entry (the dicts built by
`_process_filing_data` and `_extract_13f_filings`; only the latter adds
a `filing_quarter`). -/
structure FilingEntry where
  accession_number : String
  filing_date : String
  form : String
  filing_year : ℕ
  filing_quarter : Option String := none
deriving DecidableEq, Repr

/-- Row loop of `_process_filing_data`: iterate over `form` with index
`i`; a `13F-HR` row reads `filingDate[i]` (IndexError if missing), parses
its year (ValueError if malformed), filters it to
`start_year ≤ year ≤ end_year`, and reads `accessionNumber[i]`.  Any
raised error aborts the whole call, modelled as `.error ()`. -/
def processFilingRows (fd : FilingData) (startY endY : ℕ) :
    ℕ → List String → Except Unit (List FilingEntry)
  | _, [] => .ok []
  | i, f :: rest =>
    if f = "13F-HR" then
      match fd.filingDate[i]? with
      | none => .error ()
      | some date =>
        match yearOfDate date with
        | none => .error ()
        | some y =>
          if startY ≤ y ∧ y ≤ endY then
            match fd.accessionNumber[i]? with
            | none => .error ()
            | some acc =>
              match processFilingRows fd startY endY (i + 1) rest with
              | .error e => .error e
              | .ok tail =>
                .ok ({ accession_number := acc, filing_date := date,
                       form := "13F-HR", filing_year := y } :: tail)
          else processFilingRows fd startY endY (i + 1) rest
    else processFilingRows fd startY endY (i + 1) rest

/-- `_process_filing_data` (`institutional_tracker.py`). -/
def processFilingData (fd : FilingData) (startY endY : ℕ) :
    Except Unit (List FilingEntry) :=
  processFilingRows fd startY endY 0 fd.form

/-- Row loop of `_extract_13f_filings` (`simplified_institutional.py`):
like `processFilingRows` but filtered by
`filing_year ≥ datetime.now().year - years_back` and additionally
deriving the quarter string from the month component. -/
def extract13fRows (nowYear : ℕ) (fd : FilingData) (yearsBack : ℕ) :
    ℕ → List String → Except Unit (List FilingEntry)
  | _, [] => .ok []
  | i, f :: rest =>
    if f = "13F-HR" then
      match fd.filingDate[i]? with
      | none => .error ()
      | some date =>
        match yearOfDate date with
        | none => .error ()
        | some y =>
          if nowYear - yearsBack ≤ y then
            match fd.accessionNumber[i]?, monthOfDate date with
            | some acc, some m =>
              match extract13fRows nowYear fd yearsBack (i + 1) rest with
              | .error e => .error e
              | .ok tail =>
                .ok ({ accession_number := acc, filing_date := date,
                       form := "13F-HR", filing_year := y,
                       filing_quarter := some (quarterString m) } :: tail)
            | _, _ => .error ()
          else extract13fRows nowYear fd yearsBack (i + 1) rest
    else extract13fRows nowYear fd yearsBack (i + 1) rest

/-- `_extract_13f_filings` (`simplified_institutional.py`), with the
ambient `datetime.now().year` made explicit. -/
def extract13fFilings (nowYear : ℕ) (fd : FilingData) (yearsBack : ℕ) :
    Except Unit (List FilingEntry) :=
  extract13fRows nowYear fd yearsBack 0 fd.form

/-- The submissions index document:
`data.get('filings', {}).get('recent', {})` is `none` when missing or
empty (both falsy in `if recent_filings:`). -/
structure SubmissionsDoc where
  recent : Option FilingData

/-- Environment of one crawl: the outcome of the submissions-index fetch
and, in order, the outcomes of the fetches of the archived index shards
referenced by `filings.files`. -/
structure CrawlEnv where
  index : FetchOutcome SubmissionsDoc
  shards : List (FetchOutcome FilingData)

/-- Observable events of the shard loop: one archived-shard HTTP request,
or one `time.sleep(0.2)` throttle delay. -/
inductive CrawlEvent | fetchShard | sleepDelay
deriving DecidableEq, Repr

/-- The archived-shard loop of `get_historical_13f_filings` lines 87-100,
with its event trace.  Each iteration fetches the shard inside a `try`:
a raising fetch (or a processing error) hits the `except`/`continue`, so
the trailing `time.sleep(0.2)` is skipped; a response — 200 or not — is
followed by the sleep. -/
def shardLoop (startY endY : ℕ) :
    List (FetchOutcome FilingData) → List FilingEntry × List CrawlEvent
  | [] => ([], [])
  | o :: rest =>
    let r := shardLoop startY endY rest
    match o with
    | .exn => (r.1, .fetchShard :: r.2)
    | .resp s fd =>
      if s = 200 then
        match processFilingData fd startY endY with
        | .error _ => (r.1, .fetchShard :: r.2)
        | .ok l => (l ++ r.1, .fetchShard :: .sleepDelay :: r.2)
      else (r.1, .fetchShard :: .sleepDelay :: r.2)

/-- Descending filing-date order on index entries (ISO date strings
compare lexicographically, which is chronologically). -/
def entryDateGE (a b : FilingEntry) : Prop := strLE b.filing_date a.filing_date

instance : DecidableRel entryDateGE := fun a b =>
  inferInstanceAs (Decidable (strLE b.filing_date a.filing_date))

/-- `all_filings.sort(key=lambda x: x['filing_date'], reverse=True)`. -/
def sortEntriesByDateDesc (l : List FilingEntry) : List FilingEntry :=
  List.insertionSort entryDateGE l

/-- `True` exactly on traces with two shard fetches and no intervening
sleep. -/
def adjacentFetches : List CrawlEvent → Bool
  | .fetchShard :: .fetchShard :: _ => true
  | _ :: rest => adjacentFetches rest
  | [] => false

/-- `get_historical_13f_filings`: on a 200 submissions response, process
the recent inline list (a raised error there reaches the outer `except`
and yields `[]`), then run the shard loop, concatenate, and sort by
filing date descending.  A non-200 or raising index fetch yields `[]`.
The second component is the shard-loop event trace. -/
def getHistorical13fFilings (env : CrawlEnv) (startY endY : ℕ) :
    List FilingEntry × List CrawlEvent :=
  match env.index with
  | .exn => ([], [])
  | .resp s doc =>
    if s = 200 then
      match (doc.recent.map fun fd => processFilingData fd startY endY).getD
          (.ok []) with
      | .error _ => ([], [])
      | .ok recents =>
        let sl := shardLoop startY endY env.shards
        (sortEntriesByDateDesc (recents ++ sl.1), sl.2)
    else ([], [])

/-! ## The historical aggregator (`_create_historical_summary`) -/

/-- One row of the `holdings_df` data frame assembled by
`get_historical_holdings_for_ticker`: the parser-holding fields plus the
provenance added at lines 488-494. -/
structure HRec where
  security_name : String := ""
  cusip : String := ""
  ticker : String := ""
  shares : ℚ
  market_value : ℚ := 0
  institution_name : String
  institution_cik : String := ""
  filing_date : String
  filing_year : ℕ := 0
  accession_number : String := ""
deriving DecidableEq, Repr

/-- One row of the yearly summary built by `_create_historical_summary`
lines 603-613. -/
structure SummaryRec where
  year : ℕ
  ticker : String
  total_institutional_shares : ℚ
  total_market_value : ℚ
  num_major_institutions : ℕ
  avg_holding_size : ℚ
  largest_holder : String
  largest_holding_shares : ℚ
  concentration_top3 : ℚ
deriving DecidableEq, Repr

/-- Descending filing-date order on holdings rows. -/
def dateGE (a b : HRec) : Prop := strLE b.filing_date a.filing_date

instance : DecidableRel dateGE := fun a b =>
  inferInstanceAs (Decidable (strLE b.filing_date a.filing_date))

instance : IsTotal HRec dateGE := ⟨fun a b => by
  unfold dateGE strLE
  generalize b.filing_date.data = x
  generalize a.filing_date.data = y
  induction x generalizing y with
  | nil => simp [lexLE]
  | cons c cs ih =>
    cases y with
    | nil => simp [lexLE]
    | cons d ds =>
      simp only [lexLE]
      by_cases h1 : c.toNat < d.toNat
      · left; simp [h1]
      · by_cases h2 : d.toNat < c.toNat
        · right; simp [h1, h2]
        · rcases ih ds with h | h
          · left; simp [h1, h2, h]
          · right; simp [h1, h2, h]⟩

instance : IsTrans HRec dateGE := ⟨fun a b c hab hbc => by
  unfold dateGE strLE at *
  have tr : ∀ (x y z : List Char), lexLE x y = true → lexLE y z = true →
      lexLE x z = true := by
    intro x
    induction x with
    | nil => intro y z _ _; simp [lexLE]
    | cons p ps ih =>
      intro y z hxy hyz
      cases y with
      | nil => simp [lexLE] at hxy
      | cons q qs =>
        cases z with
        | nil => simp [lexLE] at hyz
        | cons r rs =>
          simp only [lexLE] at hxy hyz ⊢
          split_ifs at hxy hyz ⊢ <;>
            first
              | rfl
              | omega
              | (exact ih qs rs hxy hyz)
  exact tr _ _ _ hbc hab⟩

/-- `holdings_df.sort_values('filing_date', ascending=False)`
(`track_major_institutions` line 526): ISO date strings sort
lexicographically, which is chronological. -/
def sortHoldingsByDateDesc (l : List HRec) : List HRec :=
  List.insertionSort dateGE l

/-- `pd.to_datetime(filing_date).dt.year` on an ISO date string. -/
def yearOfRec (h : HRec) : Option ℕ := yearOfDate h.filing_date

/-- First-occurrence-per-institution filter: the content of
`groupby('institution_name').first()` under the current row order
(pandas takes, per group, the first row in order of appearance). -/
def dedupAux (seen : List String) : List HRec → List HRec
  | [] => []
  | h :: t =>
    if seen.contains h.institution_name then dedupAux seen t
    else h :: dedupAux (h.institution_name :: seen) t

/-- `year_data.groupby('institution_name').first()`. -/
def dedupByInstitution (l : List HRec) : List HRec := dedupAux [] l

/-- First row attaining the maximum of `f` (pandas `idxmax`). -/
def firstMaxBy (f : HRec → ℚ) : List HRec → Option HRec
  | [] => none
  | h :: t =>
    match firstMaxBy f t with
    | none => some h
    | some m => if f h < f m then some m else some h

/-- Descending share-count order on holdings rows. -/
def sharesGE (a b : HRec) : Prop := b.shares ≤ a.shares

instance : DecidableRel sharesGE := fun a b =>
  inferInstanceAs (Decidable (b.shares ≤ a.shares))

/-- `nlargest(3, 'shares')` is the first three rows of a stable
descending sort on `shares` (pandas tie-break `keep='first'`). -/
def sortBySharesDesc (l : List HRec) : List HRec :=
  List.insertionSort sharesGE l

/-- `sorted(holdings_df['year'].unique(), reverse=True)`. -/
def yearsDesc (l : List HRec) : List ℕ :=
  List.insertionSort (fun a b : ℕ => b ≤ a)
    ((l.map fun h => (yearOfRec h).getD 0).dedup)

/-- The per-year deduplicated frame `latest_per_institution`: filter the
date-sorted frame to the year, keep the first (most recent) row per
institution. -/
def latestPerInstitution (l : List HRec) (y : ℕ) : List HRec :=
  dedupByInstitution
    ((sortHoldingsByDateDesc l).filter fun h => yearOfRec h == some y)

/-- The summary dict of `_create_historical_summary` lines 603-613 for
one year, built from the deduplicated frame `D`. -/
def mkYearSummary (y : ℕ) (ticker : String) (D : List HRec) : SummaryRec :=
  let totalShares := (D.map HRec.shares).sum
  { year := y
    ticker := ticker
    total_institutional_shares := totalShares
    total_market_value := (D.map HRec.market_value).sum
    num_major_institutions := D.length
    avg_holding_size :=
      if 0 < D.length then totalShares / (D.length : ℚ) else 0
    largest_holder :=
      ((firstMaxBy HRec.shares D).map HRec.institution_name).getD ""
    largest_holding_shares :=
      ((firstMaxBy HRec.shares D).map HRec.shares).getD 0
    concentration_top3 :=
      if 0 < totalShares then
        (((sortBySharesDesc D).take 3).map HRec.shares).sum
          / totalShares * 100
      else 0 }

/-- `_create_historical_summary`, composed with the date sort its caller
applies at line 526.  A date `pd.to_datetime` cannot parse raises inside
the `try`, whose handler returns `[]`; this is the `all ... isSome`
guard. -/
def createHistoricalSummary (l : List HRec) (ticker : String) :
    List SummaryRec :=
  if l.all fun h => (yearOfRec h).isSome then
    (yearsDesc l).filterMap fun y =>
      let D := latestPerInstitution l y
      if D.isEmpty then none else some (mkYearSummary y ticker D)
  else []

/-! ## Concrete test fixtures -/

/-- A structured-table entry for an NVDA holding with reported share
count `"100"` and reported value `"500"`. -/
def exEntry : RawEntry :=
  { name := some "NVIDIA CORP", cusip := some "67066G104",
    shares := some "100", value := some "500" }

/-- Earlier 2020 filing of the same institution, 200 shares. -/
def hOld : HRec :=
  { shares := 200, institution_name := "Berkshire Hathaway Inc",
    filing_date := "2020-05-15", accession_number := "0001-20-000001" }

/-- Later 2020 filing of the same institution, 300 shares. -/
def hNew : HRec :=
  { shares := 300, institution_name := "Berkshire Hathaway Inc",
    filing_date := "2020-08-14", accession_number := "0001-20-000002" }

/-- A holding row with a zero share count. -/
def hZero : HRec :=
  { shares := 0, institution_name := "BlackRock Inc",
    filing_date := "2020-05-15" }

/-- A recent-list index object with one holdings report and one other
form. -/
def fdRecent : FilingData :=
  { form := ["13F-HR", "10-K"],
    accessionNumber := ["0001-21-000001", "0001-21-000002"],
    filingDate := ["2021-11-15", "2021-03-01"] }

/-- An archived-shard index object with one holdings report. -/
def fdShard : FilingData :=
  { form := ["13F-HR"], accessionNumber := ["0001-09-000009"],
    filingDate := ["2009-02-17"] }

/-- A crawl whose first archived shard fetch raises and whose second
succeeds. -/
def envC6 : CrawlEnv :=
  { index := .resp 200 { recent := some fdRecent },
    shards := [.exn, .resp 200 fdShard] }

/-! ## Helper lemmas: decimal rendering and parsing round-trip -/

theorem digitChar_isDigit (r : ℕ) (h : r < 10) : (digitChar r).isDigit = true := by
  revert r; decide

theorem digitChar_toNat (r : ℕ) (h : r < 10) : (digitChar r).toNat - 48 = r := by
  revert r; decide

theorem isDigit_ne_dash (c : Char) (h : c.isDigit = true) : c ≠ '-' := by
  intro he; subst he; simp [Char.isDigit] at h

theorem natCharsFuel_isDigit :
    ∀ f n c, c ∈ natCharsFuel f n → c.isDigit = true := by
  intro f
  induction f with
  | zero => intro n c h; simp [natCharsFuel] at h
  | succ f ih =>
    intro n c h
    cases n with
    | zero => simp [natCharsFuel] at h
    | succ n =>
      simp only [natCharsFuel] at h
      rcases List.mem_append.mp h with h | h
      · exact ih _ _ h
      · simp only [List.mem_singleton] at h
        subst h
        exact digitChar_isDigit _ (Nat.mod_lt _ (by norm_num))

theorem digitsToNat_append_singleton (l : List Char) (c : Char) :
    digitsToNat (l ++ [c]) = 10 * digitsToNat l + (c.toNat - 48) := by
  simp [digitsToNat, List.foldl_append]

theorem digitsToNat_natCharsFuel :
    ∀ f n, n ≤ f → digitsToNat (natCharsFuel f n) = n := by
  intro f
  induction f with
  | zero =>
    intro n h
    interval_cases n
    rfl
  | succ f ih =>
    intro n h
    cases n with
    | zero => rfl
    | succ n =>
      have hdiv : (n + 1) / 10 < n + 1 := Nat.div_lt_self (Nat.succ_pos n) (by norm_num)
      rw [show natCharsFuel (f + 1) (n + 1) =
            natCharsFuel f ((n + 1) / 10) ++ [digitChar ((n + 1) % 10)] from rfl,
          digitsToNat_append_singleton,
          ih _ (by omega),
          digitChar_toNat _ (Nat.mod_lt _ (by norm_num))]
      omega

theorem digitsToNat_natChars (n : ℕ) : digitsToNat (natChars n) = n :=
  digitsToNat_natCharsFuel n n le_rfl

theorem digitsToNat_replicate_zero :
    ∀ (k : ℕ) (l : List Char),
      digitsToNat (List.replicate k '0' ++ l) = digitsToNat l := by
  intro k
  induction k with
  | zero => intro l; rfl
  | succ k ih =>
    intro l
    rw [List.replicate_succ, List.cons_append]
    show digitsToNat (List.replicate k '0' ++ l) = digitsToNat l
    exact ih l

theorem padChars_isDigit (k n : ℕ) (c : Char) (h : c ∈ padChars k n) :
    c.isDigit = true := by
  rcases List.mem_append.mp h with h | h
  · rw [List.eq_of_mem_replicate h]; decide
  · exact natCharsFuel_isDigit _ _ _ h

theorem padChars_ne_nil (k n : ℕ) (hk : 0 < k) : padChars k n ≠ [] := by
  intro hcon
  rcases List.append_eq_nil.mp hcon with ⟨h1, h2⟩
  rw [List.replicate_eq_nil_iff] at h1
  have h2l : (natChars n).length = 0 := by rw [h2]; rfl
  rw [h2l] at h1
  omega

theorem parseNatL_padChars (k n : ℕ) (hk : 0 < k) :
    parseNatL (padChars k n) = some n := by
  unfold parseNatL
  rw [if_pos]
  · rw [show padChars k n = List.replicate (k - (natChars n).length) '0' ++ natChars n
        from rfl, digitsToNat_replicate_zero, digitsToNat_natChars]
  · refine ⟨padChars_ne_nil k n hk, ?_⟩
    rw [List.all_eq_true]
    exact fun c hc => padChars_isDigit k n c hc

/-! ## Helper lemmas: the `-` splitter and ISO dates -/

theorem splitOnC_ne_nil (c : Char) : ∀ l, splitOnC c l ≠ [] := by
  intro l
  induction l with
  | nil => simp [splitOnC]
  | cons a t ih =>
    simp only [splitOnC]
    cases hac : a == c <;> cases ht : splitOnC c t <;> simp_all

theorem splitOnC_no_sep (c : Char) :
    ∀ l, (∀ x ∈ l, x ≠ c) → splitOnC c l = [l] := by
  intro l
  induction l with
  | nil => intro _; rfl
  | cons a t ih =>
    intro h
    have hac : (a == c) = false := by
      simp only [beq_eq_false_iff_ne]
      exact h a (List.mem_cons_self a t)
    have ht := ih fun x hx => h x (List.mem_cons_of_mem _ hx)
    simp [splitOnC, ht, hac]

theorem splitOnC_append (c : Char) :
    ∀ (a b : List Char), (∀ x ∈ a, x ≠ c) →
      splitOnC c (a ++ c :: b) = a :: splitOnC c b := by
  intro a
  induction a with
  | nil =>
    intro b _
    have hcc : (c == c) = true := by simp
    simp [splitOnC, hcc]
  | cons x xs ih =>
    intro b h
    have hx : (x == c) = false := by
      simp only [beq_eq_false_iff_ne]
      exact h x (List.mem_cons_self x xs)
    have ht := ih b fun y hy => h y (List.mem_cons_of_mem _ hy)
    simp [splitOnC, ht, hx]

theorem splitOnC_isoDate (y m d : ℕ) :
    splitOnC '-' (isoDate y m d).data =
      [padChars 4 y, padChars 2 m, padChars 2 d] := by
  show splitOnC '-' (padChars 4 y ++ '-' :: (padChars 2 m ++ '-' :: padChars 2 d)) = _
  rw [splitOnC_append _ _ _
        (fun x hx => isDigit_ne_dash x (padChars_isDigit 4 y x hx)),
      splitOnC_append _ _ _
        (fun x hx => isDigit_ne_dash x (padChars_isDigit 2 m x hx)),
      splitOnC_no_sep _ _
        (fun x hx => isDigit_ne_dash x (padChars_isDigit 2 d x hx))]

theorem yearOfDate_isoDate (y m d : ℕ) :
    yearOfDate (isoDate y m d) = some y := by
  unfold yearOfDate
  rw [splitOnC_isoDate]
  exact parseNatL_padChars 4 y (by norm_num)

theorem monthOfDate_isoDate (y m d : ℕ) :
    monthOfDate (isoDate y m d) = some m := by
  unfold monthOfDate
  rw [splitOnC_isoDate]
  simp only [List.getElem?_cons_succ, List.getElem?_cons_zero, Option.bind_some]
  exact parseNatL_padChars 2 m (by norm_num)

/-! ## Helper lemmas: order, sort, and dedup of the aggregator -/

theorem lexLE_refl : ∀ l, lexLE l l = true := by
  intro l
  induction l with
  | nil => rfl
  | cons c cs ih => simp [lexLE, ih]

theorem strLE_refl (s : String) : strLE s s := lexLE_refl s.data

theorem mem_sortHoldings (l : List HRec) (r : HRec) :
    r ∈ sortHoldingsByDateDesc l ↔ r ∈ l :=
  (List.perm_insertionSort dateGE l).mem_iff

theorem mem_sortEntries (l : List FilingEntry) (e : FilingEntry) :
    e ∈ sortEntriesByDateDesc l ↔ e ∈ l :=
  (List.perm_insertionSort entryDateGE l).mem_iff

theorem mem_of_mem_dedupAux :
    ∀ (t : List HRec) (seen : List String) (r : HRec),
      r ∈ dedupAux seen t → r ∈ t := by
  intro t
  induction t with
  | nil => intro seen r h; simp [dedupAux] at h
  | cons h t ih =>
    intro seen r hr
    simp only [dedupAux] at hr
    by_cases hc : seen.contains h.institution_name
    · rw [if_pos hc] at hr
      exact List.mem_cons_of_mem _ (ih _ _ hr)
    · rw [if_neg hc, List.mem_cons] at hr
      rcases hr with hr | hr
      · exact hr ▸ List.mem_cons_self _ _
      · exact List.mem_cons_of_mem _ (ih _ _ hr)

theorem countP_dedupAux (inst : String) :
    ∀ (t : List HRec) (seen : List String),
      ((dedupAux seen t).countP fun r => r.institution_name == inst) =
        if inst ∈ seen then 0
        else if (∃ x ∈ t, x.institution_name = inst) then 1 else 0 := by
  intro t
  induction t with
  | nil =>
    intro seen
    by_cases hs : inst ∈ seen <;> simp [dedupAux, hs]
  | cons h t ih =>
    intro seen
    simp only [dedupAux]
    by_cases hc : h.institution_name ∈ seen
    · have hc' : seen.contains h.institution_name = true := by simpa using hc
      rw [if_pos hc', ih]
      by_cases hi : inst ∈ seen
      · simp [hi]
      · have hne : ¬h.institution_name = inst := fun he => hi (he ▸ hc)
        simp [hi, List.exists_mem_cons_iff, hne]
    · have hc' : ¬seen.contains h.institution_name = true := by simpa using hc
      rw [if_neg hc', List.countP_cons, ih]
      by_cases hhi : h.institution_name = inst
      · have hbeq : (h.institution_name == inst) = true := by simpa using hhi
        have hmem : inst ∈ h.institution_name :: seen := by
          rw [hhi]; exact List.mem_cons_self _ _
        have hnotseen : ¬inst ∈ seen := fun hmem2 => hc (hhi ▸ hmem2)
        simp [hmem, hbeq, hnotseen, List.exists_mem_cons_iff, hhi]
      · have hbeq : (h.institution_name == inst) = false := by simpa using hhi
        have hmem : (inst ∈ h.institution_name :: seen) ↔ inst ∈ seen := by
          rw [List.mem_cons]
          exact or_iff_right fun he => hhi he.symm
        by_cases hi : inst ∈ seen
        · simp [hmem, hi, hbeq]
        · simp [hmem, hi, hbeq, List.exists_mem_cons_iff, hhi]

theorem dedupAux_not_seen_and_latest :
    ∀ (t : List HRec) (seen : List String) (r : HRec),
      List.Pairwise dateGE t → r ∈ dedupAux seen t →
      r.institution_name ∉ seen ∧
        ∀ h ∈ t, h.institution_name = r.institution_name →
          strLE h.filing_date r.filing_date := by
  intro t
  induction t with
  | nil => intro seen r _ hr; simp [dedupAux] at hr
  | cons h t ih =>
    intro seen r hp hr
    have hpt : List.Pairwise dateGE t := (List.pairwise_cons.mp hp).2
    simp only [dedupAux] at hr
    by_cases hc : h.institution_name ∈ seen
    · have hc' : seen.contains h.institution_name = true := by simpa using hc
      rw [if_pos hc'] at hr
      obtain ⟨hseen, hmax⟩ := ih seen r hpt hr
      refine ⟨hseen, ?_⟩
      intro x hx hname
      rw [List.mem_cons] at hx
      rcases hx with hx | hx
      · subst hx
        exact absurd (hname ▸ hc) hseen
      · exact hmax _ hx hname
    · have hc' : ¬seen.contains h.institution_name = true := by simpa using hc
      rw [if_neg hc', List.mem_cons] at hr
      rcases hr with hr | hr
      · subst hr
        refine ⟨hc, ?_⟩
        intro x hx hname
        rw [List.mem_cons] at hx
        rcases hx with hx | hx
        · subst hx; exact strLE_refl _
        · exact List.rel_of_pairwise_cons hp hx
      · obtain ⟨hseen, hmax⟩ := ih _ r hpt hr
        rw [List.mem_cons] at hseen
        push_neg at hseen
        refine ⟨hseen.2, ?_⟩
        intro x hx hname
        rw [List.mem_cons] at hx
        rcases hx with hx | hx
        · subst hx
          exact absurd hname.symm hseen.1
        · exact hmax _ hx hname

theorem latestPerInstitution_pairwise (l : List HRec) (y : ℕ) :
    List.Pairwise dateGE
      ((sortHoldingsByDateDesc l).filter fun h => yearOfRec h == some y) :=
  (List.sorted_insertionSort dateGE l).filter _

theorem mem_createHistoricalSummary (l : List HRec) (tk : String)
    (s : SummaryRec) (hs : s ∈ createHistoricalSummary l tk) :
    ∃ y, s = mkYearSummary y tk (latestPerInstitution l y) := by
  unfold createHistoricalSummary at hs
  by_cases hall : l.all fun h => (yearOfRec h).isSome
  · rw [if_pos hall, List.mem_filterMap] at hs
    obtain ⟨y, _, hy⟩ := hs
    by_cases hD : (latestPerInstitution l y).isEmpty <;> simp [hD] at hy
    exact ⟨y, hy.symm⟩
  · rw [if_neg hall] at hs
    simp at hs

/-! ## Helper lemmas: fields of retained filing-index entries -/

theorem extract13fRows_fields (nowY yB : ℕ) (fd : FilingData) :
    ∀ (forms : List String) (i : ℕ) (entries : List FilingEntry),
      extract13fRows nowY fd yB i forms = .ok entries →
      ∀ e ∈ entries, yearOfDate e.filing_date = some e.filing_year ∧
        ∃ m, monthOfDate e.filing_date = some m ∧
          e.filing_quarter = some (quarterString m) := by
  intro forms
  induction forms with
  | nil =>
    intro i entries h e he
    simp only [extract13fRows] at h
    cases h
    simp at he
  | cons f rest ih =>
    intro i entries h e he
    simp only [extract13fRows] at h
    by_cases hf : f = "13F-HR"
    · rw [if_pos hf] at h
      cases hdate : fd.filingDate[i]? with
      | none => simp only [hdate] at h; cases h
      | some date =>
        simp only [hdate] at h
        cases hyear : yearOfDate date with
        | none => simp only [hyear] at h; cases h
        | some y =>
          simp only [hyear] at h
          by_cases hcut : nowY - yB ≤ y
          · rw [if_pos hcut] at h
            cases hacc : fd.accessionNumber[i]? with
            | none => simp only [hacc] at h; cases h
            | some acc =>
              simp only [hacc] at h
              cases hmonth : monthOfDate date with
              | none => simp only [hmonth] at h; cases h
              | some m =>
                simp only [hmonth] at h
                cases hrec : extract13fRows nowY fd yB (i + 1) rest with
                | error u => simp only [hrec] at h; cases h
                | ok tail =>
                  simp only [hrec] at h
                  cases h
                  rw [List.mem_cons] at he
                  rcases he with he | he
                  · subst he
                    exact ⟨hyear, m, hmonth, rfl⟩
                  · exact ih _ _ hrec e he
          · rw [if_neg hcut] at h
            exact ih _ _ h e he
    · rw [if_neg hf] at h
      exact ih _ _ h e he

theorem processFilingRows_fields (sY eY : ℕ) (fd : FilingData) :
    ∀ (forms : List String) (i : ℕ) (entries : List FilingEntry),
      processFilingRows fd sY eY i forms = .ok entries →
      ∀ e ∈ entries, yearOfDate e.filing_date = some e.filing_year := by
  intro forms
  induction forms with
  | nil =>
    intro i entries h e he
    simp only [processFilingRows] at h
    cases h
    simp at he
  | cons f rest ih =>
    intro i entries h e he
    simp only [processFilingRows] at h
    by_cases hf : f = "13F-HR"
    · rw [if_pos hf] at h
      cases hdate : fd.filingDate[i]? with
      | none => simp only [hdate] at h; cases h
      | some date =>
        simp only [hdate] at h
        cases hyear : yearOfDate date with
        | none => simp only [hyear] at h; cases h
        | some y =>
          simp only [hyear] at h
          by_cases hrange : sY ≤ y ∧ y ≤ eY
          · rw [if_pos hrange] at h
            cases hacc : fd.accessionNumber[i]? with
            | none => simp only [hacc] at h; cases h
            | some acc =>
              simp only [hacc] at h
              cases hrec : processFilingRows fd sY eY (i + 1) rest with
              | error u => simp only [hrec] at h; cases h
              | ok tail =>
                simp only [hrec] at h
                cases h
                rw [List.mem_cons] at he
                rcases he with he | he
                · subst he
                  exact hyear
                · exact ih _ _ hrec e he
          · rw [if_neg hrange] at h
            exact ih _ _ h e he
    · rw [if_neg hf] at h
      exact ih _ _ h e he

/-! ## Helper lemmas: the shard loop -/

theorem shardLoop_mem (sY eY : ℕ) :
    ∀ (shards : List (FetchOutcome FilingData)) (o : FetchOutcome FilingData)
      (fd : FilingData) (l : List FilingEntry),
      o ∈ shards → o = FetchOutcome.resp 200 fd →
      processFilingData fd sY eY = .ok l →
      ∀ e ∈ l, e ∈ (shardLoop sY eY shards).1 := by
  intro shards
  induction shards with
  | nil => intro o fd l ho; simp at ho
  | cons s rest ih =>
    intro o fd l ho heq hproc e he
    rw [List.mem_cons] at ho
    rcases ho with ho | ho
    · subst ho
      subst heq
      simp only [shardLoop, hproc]
      simp [he]
    · have hrest := ih o fd l ho heq hproc e he
      simp only [shardLoop]
      rcases s with _ | ⟨st, sfd⟩
      · exact hrest
      · by_cases hst : st = 200
        · subst hst
          simp only [if_pos rfl]
          rcases hpd : processFilingData sfd sY eY with _ | l2
          · exact hrest
          · simp [hrest]
        · simp only [if_neg hst]
          exact hrest

theorem shardLoop_no_adjacent (sY eY : ℕ) :
    ∀ shards : List (FetchOutcome FilingData),
      (∀ o ∈ shards, ∃ s fd, o = FetchOutcome.resp s fd ∧
        (s = 200 → ∃ l, processFilingData fd sY eY = Except.ok l)) →
      adjacentFetches (shardLoop sY eY shards).2 = false := by
  intro shards
  induction shards with
  | nil => intro _; rfl
  | cons o rest ih =>
    intro hgood
    obtain ⟨s, fd, ho, hok⟩ := hgood o (List.mem_cons_self _ _)
    have hrest := ih fun o ho => hgood o (List.mem_cons_of_mem _ ho)
    subst ho
    simp only [shardLoop]
    by_cases hs : s = 200
    · subst hs
      obtain ⟨l, hl⟩ := hok rfl
      simp only [if_pos rfl, hl]
      exact hrest
    · simp only [if_neg hs]
      exact hrest

/-! ## Claim theorems -/

/-- C7: for every holdings set and ticker, any yearly summary row whose
total institutional share count is 0 has a top-3 concentration of exactly
0: the `if total_shares > 0` guard short-circuits, so no division by zero
is attempted and no NaN is produced (in this `ℚ` model the field is the
literal 0 branch of the guard). -/
theorem concentration_zero_guard (l : List HRec) (tk : String)
    (s : SummaryRec) (hs : s ∈ createHistoricalSummary l tk)
    (h0 : s.total_institutional_shares = 0) : s.concentration_top3 = 0 := by
  obtain ⟨y, rfl⟩ := mem_createHistoricalSummary l tk s hs
  simp only [mkYearSummary] at h0 ⊢
  rw [h0]
  simp

/-- Witness for C7: a single institution holding 0 shares in 2020 yields
a summary row with total 0 whose concentration is 0. -/
theorem concentration_zero_guard_witness :
    (mkYearSummary 2020 "NVDA" (latestPerInstitution [hZero] 2020)).concentration_top3 = 0 :=
  concentration_zero_guard [hZero] "NVDA" _
    (by
      rw [show createHistoricalSummary [hZero] "NVDA" =
            [mkYearSummary 2020 "NVDA" (latestPerInstitution [hZero] 2020)] from rfl]
      exact List.mem_cons_self _ _)
    (by
      show ([hZero].map HRec.shares).sum = 0
      simp [hZero])

/-- C8: every filing-index entry retained by the crawler derives its
filing year from the year component of its ISO filing date, and (in the
simplified tracker) its quarter string from `((month - 1) // 3) + 1`,
which lies in `{1, 2, 3, 4}` for calendar months. -/
theorem filing_year_quarter_invariant :
    (∀ (nowY yB : ℕ) (fd : FilingData) (entries : List FilingEntry),
      extract13fFilings nowY fd yB = .ok entries →
      ∀ e ∈ entries, ∀ y m d : ℕ, 1 ≤ m → m ≤ 12 →
        e.filing_date = isoDate y m d →
        e.filing_year = y ∧ e.filing_quarter = some (quarterString m) ∧
          1 ≤ (m - 1) / 3 + 1 ∧ (m - 1) / 3 + 1 ≤ 4) ∧
    (∀ (sY eY : ℕ) (fd : FilingData) (entries : List FilingEntry),
      processFilingData fd sY eY = .ok entries →
      ∀ e ∈ entries, ∀ y m d : ℕ, e.filing_date = isoDate y m d →
        e.filing_year = y) := by
  constructor
  · intro nowY yB fd entries h e he y m d hm1 hm2 hdate
    obtain ⟨hy, m2, hm, hq⟩ := extract13fRows_fields nowY yB fd fd.form 0 entries h e he
    rw [hdate, yearOfDate_isoDate] at hy
    rw [hdate, monthOfDate_isoDate] at hm
    have hyy := Option.some.inj hy
    have hmm := Option.some.inj hm
    refine ⟨hyy.symm, ?_, by omega, by omega⟩
    rw [hq, ← hmm]
  · intro sY eY fd entries h e he y m d hdate
    have hy := processFilingRows_fields sY eY fd fd.form 0 entries h e he
    rw [hdate, yearOfDate_isoDate] at hy
    exact (Option.some.inj hy).symm

/-- Witness for C8: the retained entry with filing date 2021-11-15 gets
filing year 2021 and quarter Q4. -/
theorem filing_year_quarter_witness :
    extract13fFilings 2025 fdRecent 20 =
      .ok [{ accession_number := "0001-21-000001", filing_date := "2021-11-15",
             form := "13F-HR", filing_year := 2021,
             filing_quarter := some "Q4" }] ∧
    ({ accession_number := "0001-21-000001", filing_date := "2021-11-15",
       form := "13F-HR", filing_year := 2021,
       filing_quarter := some "Q4" } : FilingEntry).filing_year = 2021 ∧
    ({ accession_number := "0001-21-000001", filing_date := "2021-11-15",
       form := "13F-HR", filing_year := 2021,
       filing_quarter := some "Q4" } : FilingEntry).filing_quarter =
      some (quarterString 11) :=
  ⟨rfl,
   (filing_year_quarter_invariant.1 2025 20 fdRecent _ rfl _
      (List.mem_cons_self _ _) 2021 11 15 (by norm_num) (by norm_num)
      (by decide)).1,
   (filing_year_quarter_invariant.1 2025 20 fdRecent _ rfl _
      (List.mem_cons_self _ _) 2021 11 15 (by norm_num) (by norm_num)
      (by decide)).2.1⟩

/-- C6: on a successful index fetch, a failing archived-shard fetch
(exception or non-200 status) is skipped: the returned filing list still
contains every entry processed from the recent inline list and every
entry from each shard that returned 200 and processed cleanly; the crawl
is never aborted by a single shard failure. -/
theorem shard_failure_partial_results
    (doc : SubmissionsDoc) (shards : List (FetchOutcome FilingData))
    (sY eY : ℕ) (R : List FilingEntry)
    (hR : (doc.recent.map fun fd => processFilingData fd sY eY).getD
      (.ok []) = .ok R)
    (_hfail : ∃ o ∈ shards, o = FetchOutcome.exn ∨
      ∃ fd s, o = FetchOutcome.resp s fd ∧ s ≠ 200) :
    (∀ e ∈ R, e ∈ (getHistorical13fFilings ⟨.resp 200 doc, shards⟩ sY eY).1) ∧
    (∀ o ∈ shards, ∀ fd l, o = FetchOutcome.resp 200 fd →
      processFilingData fd sY eY = .ok l →
      ∀ e ∈ l, e ∈ (getHistorical13fFilings ⟨.resp 200 doc, shards⟩ sY eY).1) := by
  have hres : (getHistorical13fFilings ⟨.resp 200 doc, shards⟩ sY eY).1 =
      sortEntriesByDateDesc (R ++ (shardLoop sY eY shards).1) := by
    simp [getHistorical13fFilings, hR]
  constructor
  · intro e he
    rw [hres, mem_sortEntries]
    exact List.mem_append.mpr (Or.inl he)
  · intro o ho fd l heq hproc e he
    rw [hres, mem_sortEntries]
    exact List.mem_append.mpr
      (Or.inr (shardLoop_mem sY eY shards o fd l ho heq hproc e he))

/-- Witness for C6: with the first shard raising and the second
succeeding, both the recent entry and the second shard's entry are in the
result. -/
theorem shard_failure_partial_results_witness :
    ({ accession_number := "0001-21-000001", filing_date := "2021-11-15",
       form := "13F-HR", filing_year := 2021 } : FilingEntry) ∈
      (getHistorical13fFilings envC6 2005 2025).1 ∧
    ({ accession_number := "0001-09-000009", filing_date := "2009-02-17",
       form := "13F-HR", filing_year := 2009 } : FilingEntry) ∈
      (getHistorical13fFilings envC6 2005 2025).1 :=
  have h := shard_failure_partial_results { recent := some fdRecent }
    [.exn, .resp 200 fdShard] 2005 2025
    [{ accession_number := "0001-21-000001", filing_date := "2021-11-15",
       form := "13F-HR", filing_year := 2021 }] rfl
    ⟨.exn, List.mem_cons_self _ _, Or.inl rfl⟩
  ⟨h.1 _ (List.mem_cons_self _ _),
   h.2 (.resp 200 fdShard)
     (List.mem_cons_of_mem _ (List.mem_cons_self _ _)) fdShard
     [{ accession_number := "0001-09-000009", filing_date := "2009-02-17",
        form := "13F-HR", filing_year := 2009 }] rfl rfl _
     (List.mem_cons_self _ _)⟩

/-- C9 (amended): the fixed 0.2 s delay is executed only at the end of a
shard iteration that completes without raising — the fetch returns a
response and, on a 200 status, its body also processes cleanly (a non-200
response processes nothing and so always reaches the sleep).  When every
shard iteration completes without raising, no two shard fetch requests
are adjacent in the event trace.  An iteration that raises anywhere —
the fetch itself, or the body decode/processing of a 200 response — hits
`except`/`continue` before the `time.sleep(0.2)` and skips the delay, so
the next fetch can follow it immediately (see the counterexample for the
raising-fetch case; a 200 response with a failing body behaves the same
way, which is why the hypothesis below demands processing success for
200 responses). -/
theorem shard_throttle_amended
    (sY eY : ℕ) (shards : List (FetchOutcome FilingData))
    (hgood : ∀ o ∈ shards, ∃ s fd, o = FetchOutcome.resp s fd ∧
      (s = 200 → ∃ l, processFilingData fd sY eY = Except.ok l)) :
    adjacentFetches (shardLoop sY eY shards).2 = false :=
  shardLoop_no_adjacent sY eY shards hgood

/-- Witness for C9: two responding shards (one 200, one 404) produce a
trace with no adjacent fetches. -/
theorem shard_throttle_amended_witness :
    adjacentFetches
      (shardLoop 2005 2025
        [FetchOutcome.resp 200 fdShard, FetchOutcome.resp 404 fdShard]).2 = false :=
  shard_throttle_amended 2005 2025 _ (by
    intro o ho
    rw [List.mem_cons, List.mem_cons] at ho
    rcases ho with rfl | rfl | ho
    · exact ⟨200, fdShard, rfl, fun _ => ⟨_, rfl⟩⟩
    · exact ⟨404, fdShard, rfl, fun h => absurd h (by norm_num)⟩
    · simp at ho)

/-- Counterexample for C9: a raising shard fetch hits the
`except`/`continue`, skipping the `time.sleep(0.2)`, so the next shard
fetch follows it with no delay in between — two adjacent fetch events in
the trace, refuting "a fixed minimum inter-request delay is applied
between every pair of consecutive archived-shard fetch requests". -/
theorem shard_throttle_counterexample :
    (shardLoop 2005 2025 [FetchOutcome.exn, FetchOutcome.resp 200 fdShard]).2 =
      [CrawlEvent.fetchShard, CrawlEvent.fetchShard, CrawlEvent.sleepDelay] ∧
    adjacentFetches
      [CrawlEvent.fetchShard, CrawlEvent.fetchShard, CrawlEvent.sleepDelay] = true :=
  ⟨rfl, rfl⟩

/-- C10: the structured-table strategy coerces the share-count string and
the market-value string inside one shared `try`/`except`: if either
coercion fails, both the share count and the market value of the holding
are 0 — a parseable value is discarded when the other field is
unparseable — and every holding the strategy emits carries exactly this
pair. -/
theorem shared_coercion_handler :
    (∀ sh va : String,
      pyFloatQ (stripNumeric sh) = none ∨ pyFloatQ (stripNumeric va) = none →
      coercePair sh va = (0, 0)) ∧
    (∀ nm cu sh va : String,
      parseXmlInfoTable [⟨some nm, some cu, some sh, some va⟩] [] =
        [⟨nm, cu, cusipToTicker cu,
          (coercePair sh va).1, (coercePair sh va).2, none⟩]) := by
  constructor
  · intro sh va h
    unfold coercePair
    rcases h with h | h
    · rw [h]
    · rw [h]
      cases pyFloatQ (stripNumeric sh) <;> rfl
  · intro nm cu sh va
    rfl

/-- Witness for C10: an unparseable share string `"abc"` zeroes a
perfectly parseable market value `"500"` as well. -/
theorem shared_coercion_handler_witness :
    (pyFloatQ (stripNumeric "abc") = none ∨
      pyFloatQ (stripNumeric "500") = none) ∧
    coercePair "abc" "500" = (0, 0) :=
  ⟨Or.inl rfl, shared_coercion_handler.1 "abc" "500" (Or.inl rfl)⟩

/-- C1: when the structured information-table fetch returns 200 and its
parse yields at least one holding, `parse_13f_holdings` returns exactly
those holdings with only the structured-table strategy invoked; and in
every run the invoked strategies are an initial segment of the fixed
order structured table, primary document, full text. -/
theorem parser_cascade_short_circuit :
    (∀ (env : ParseEnv) (targets : List String) (d : List RawEntry),
      env.infotable = FetchOutcome.resp 200 d →
      parseXmlInfoTable d targets ≠ [] →
      parse13fHoldings env targets =
        (parseXmlInfoTable d targets, [Strategy.infotable])) ∧
    (∀ (env : ParseEnv) (targets : List String),
      (parse13fHoldings env targets).2 ∈
        [[Strategy.infotable], [Strategy.infotable, Strategy.primaryDoc],
         [Strategy.infotable, Strategy.primaryDoc, Strategy.fullText]]) := by
  constructor
  · intro env t d h hne
    simp [parse13fHoldings, h, hne]
  · intro env t
    rcases env with ⟨i, p, f⟩
    rcases i with _ | ⟨s1, d1⟩ <;> rcases p with _ | ⟨s2, d2⟩ <;>
      rcases f with _ | ⟨s3, d3⟩ <;>
      simp only [parse13fHoldings] <;>
      first
        | (split_ifs <;> simp)
        | simp

/-- Witness for C1: a 200 structured-table response holding one NVDA
entry short-circuits the cascade. -/
theorem parser_cascade_short_circuit_witness :
    parse13fHoldings
      { infotable := .resp 200 [exEntry], primaryDoc := .exn,
        fullText := .exn } ["NVDA"] =
      (parseXmlInfoTable [exEntry] ["NVDA"], [Strategy.infotable]) :=
  parser_cascade_short_circuit.1
    { infotable := .resp 200 [exEntry], primaryDoc := .exn, fullText := .exn }
    ["NVDA"] [exEntry] rfl (by decide)

/-- C5 (amended): `parse_13f_holdings` never raises — it always returns a
list.  A strategy whose fetch returns a response (any status) but yields
nothing falls through to the next strategy, and when all three respond
but yield nothing the result is the empty list; but a raising fetch hits
the single outer `except` and aborts the cascade immediately with the
empty list, without attempting later strategies (see the
counterexample). -/
theorem parse13f_error_handling :
    (∀ (env : ParseEnv) (t : List String),
      env.infotable = FetchOutcome.exn →
      parse13fHoldings env t = ([], [Strategy.infotable])) ∧
    (∀ (env : ParseEnv) (t : List String) (s1 : ℕ) (d1 : List RawEntry),
      env.infotable = FetchOutcome.resp s1 d1 →
      (s1 = 200 → parseXmlInfoTable d1 t = []) →
      Strategy.primaryDoc ∈ (parse13fHoldings env t).2) ∧
    (∀ (env : ParseEnv) (t : List String) (s1 : ℕ) (d1 : List RawEntry)
      (s2 : ℕ) (d2 : List RawEntry),
      env.infotable = FetchOutcome.resp s1 d1 →
      (s1 = 200 → parseXmlInfoTable d1 t = []) →
      env.primaryDoc = FetchOutcome.resp s2 d2 →
      (s2 = 200 → parseXmlInfoTable d2 t = []) →
      Strategy.fullText ∈ (parse13fHoldings env t).2) ∧
    (∀ (env : ParseEnv) (t : List String) (s1 : ℕ) (d1 : List RawEntry)
      (s2 : ℕ) (d2 : List RawEntry) (s3 : ℕ) (txt : String),
      env.infotable = FetchOutcome.resp s1 d1 →
      (s1 = 200 → parseXmlInfoTable d1 t = []) →
      env.primaryDoc = FetchOutcome.resp s2 d2 →
      (s2 = 200 → parseXmlInfoTable d2 t = []) →
      env.fullText = FetchOutcome.resp s3 txt →
      (s3 = 200 → extractHoldingsFromText txt t = []) →
      parse13fHoldings env t =
        ([], [Strategy.infotable, Strategy.primaryDoc, Strategy.fullText])) := by
  have hempty1 : ∀ (s : ℕ) (d : List RawEntry) (t : List String),
      (s = 200 → parseXmlInfoTable d t = []) →
      (if s = 200 then parseXmlInfoTable d t else []) = [] := by
    intro s d t h
    by_cases hs : s = 200
    · rw [if_pos hs]; exact h hs
    · rw [if_neg hs]
  refine ⟨?_, ?_, ?_, ?_⟩
  · intro env t h
    simp [parse13fHoldings, h]
  · intro env t s1 d1 h1 he1
    simp only [parse13fHoldings, h1, hempty1 s1 d1 t he1]
    rcases env.primaryDoc with _ | ⟨s2, d2⟩ <;>
      rcases env.fullText with _ | ⟨s3, txt⟩ <;> simp <;> split_ifs <;> simp
  · intro env t s1 d1 s2 d2 h1 he1 h2 he2
    simp only [parse13fHoldings, h1, hempty1 s1 d1 t he1, h2,
      hempty1 s2 d2 t he2]
    rcases env.fullText with _ | ⟨s3, txt⟩ <;> simp
  · intro env t s1 d1 s2 d2 s3 txt h1 he1 h2 he2 h3 he3
    have hempty3 : (if s3 = 200 then extractHoldingsFromText txt t else []) = [] := by
      by_cases hs : s3 = 200
      · rw [if_pos hs]; exact he3 hs
      · rw [if_neg hs]
    simp [parse13fHoldings, h1, hempty1 s1 d1 t he1, h2,
      hempty1 s2 d2 t he2, h3, hempty3]

/-- Witness for C5: three responses with non-200 statuses fall through
all strategies and yield the empty list. -/
theorem parse13f_error_handling_witness :
    parse13fHoldings
      { infotable := .resp 404 [], primaryDoc := .resp 404 [],
        fullText := .resp 404 "" } ["NVDA"] =
      ([], [Strategy.infotable, Strategy.primaryDoc, Strategy.fullText]) :=
  parse13f_error_handling.2.2.2
    { infotable := .resp 404 [], primaryDoc := .resp 404 [],
      fullText := .resp 404 "" }
    ["NVDA"] 404 [] 404 [] 404 "" rfl (fun h => absurd h (by norm_num))
    rfl (fun h => absurd h (by norm_num)) rfl (fun h => absurd h (by norm_num))

/-- Counterexample for C5: an exception in the structured-table fetch is
caught by the single outer handler, so the primary-document strategy —
which here would yield a holding — is never attempted and the result is
empty: the strategies do not each swallow their own errors. -/
theorem parse13f_exception_counterexample :
    parse13fHoldings
      { infotable := .exn, primaryDoc := .resp 200 [exEntry],
        fullText := .resp 200 "" } ["NVDA"] = ([], [Strategy.infotable]) ∧
    parseXmlInfoTable [exEntry] ["NVDA"] ≠ [] :=
  ⟨rfl, by decide⟩

/-- C2 (amended): the structured-table strategy scales every successfully
coerced market value by 1000; the full-text fallback **also** scales by
1000 — its market value is the last numeric token of the line times 1000
when the line holds more than one numeric token, and 0 otherwise (it is
not the unscaled reported value; see the counterexample). -/
theorem market_value_scaling :
    (∀ (sh va : String) (a b : ℚ),
      pyFloatQ (stripNumeric sh) = some a →
      pyFloatQ (stripNumeric va) = some b →
      coercePair sh va = (a, b * 1000)) ∧
    (∀ (text : String) (targets : List String) (h : Holding),
      h ∈ extractHoldingsFromText text targets →
      ∃ n0 rest, findNumbers h.security_name = n0 :: rest ∧
        h.shares = coerceTok n0 ∧
        h.market_value = (if 1 < (n0 :: rest).length then
          coerceTok ((n0 :: rest).getLast (by simp)) * 1000 else 0)) := by
  constructor
  · intro sh va a b ha hb
    unfold coercePair
    rw [ha, hb]
  · intro text targets h hmem
    unfold extractHoldingsFromText at hmem
    rw [List.mem_flatMap] at hmem
    obtain ⟨rawLine, _, hmem⟩ := hmem
    simp only at hmem
    by_cases hempty : stripWS ⟨rawLine⟩ = ""
    · rw [if_pos hempty] at hmem
      simp at hmem
    · rw [if_neg hempty, List.mem_filterMap] at hmem
      obtain ⟨ticker, _, hg⟩ := hmem
      by_cases hci : containsCI ticker (stripWS ⟨rawLine⟩) = true
      · rw [if_pos hci] at hg
        cases hn : findNumbers (stripWS ⟨rawLine⟩) with
        | nil => rw [hn] at hg; cases hg
        | cons n0 rest =>
          rw [hn] at hg
          have hrec := Option.some.inj hg
          refine ⟨n0, rest, ?_, ?_, ?_⟩
          · rw [← hrec, hn]
          · rw [← hrec]
          · rw [← hrec]
      · rw [if_neg hci] at hg
        cases hg

/-- Witness for C2: reported share string `"100"` and value string
`"500"` coerce to share count 100 and market value 500000 under the
structured-table strategy. -/
theorem market_value_scaling_witness :
    coercePair "100" "500" = (100, 500000) := by
  have h1 : pyFloatQ (stripNumeric "100") = some ((100 : ℕ) : ℚ) := by
    rw [show pyFloatQ (stripNumeric "100") =
          some ((digitsToNat ['1', '0', '0'] : ℕ) : ℚ) from rfl,
        show digitsToNat ['1', '0', '0'] = 100 from by decide]
  have h2 : pyFloatQ (stripNumeric "500") = some ((500 : ℕ) : ℚ) := by
    rw [show pyFloatQ (stripNumeric "500") =
          some ((digitsToNat ['5', '0', '0'] : ℕ) : ℚ) from rfl,
        show digitsToNat ['5', '0', '0'] = 500 from by decide]
  rw [market_value_scaling.1 "100" "500" _ _ h1 h2, Prod.mk.injEq]
  norm_num

/-- Counterexample for C2: on the line `"NVDA 100 500"` the full-text
fallback produces market value 500000, i.e. the last numeric token `500`
**times 1000**, not the unscaled 500 the claim asserts. -/
theorem fulltext_scaling_counterexample :
    (extractHoldingsFromText "NVDA 100 500" ["NVDA"]).map Holding.market_value
      = [500000] ∧ (500000 : ℚ) ≠ 500 := by
  constructor
  · rw [show (extractHoldingsFromText "NVDA 100 500" ["NVDA"]).map
          Holding.market_value = [coerceTok "500" * 1000] from rfl,
        show coerceTok "500" = ((digitsToNat ['5', '0', '0'] : ℕ) : ℚ) from rfl,
        show digitsToNat ['5', '0', '0'] = 500 from by decide]
    norm_num
  · norm_num

/-- C3 (amended): numeric coercion is total — every string yields a
number, a failed parse yielding 0 rather than an exception — with
`"1,234.5"` coercing to 1234.5, `""` to 0 and `"$1,000"` to 1000; but
`"(1)"` coerces to 1, not 0: the stripping regex removes the parentheses
and keeps the digit, so parenthesized digits are not blanked as footnote
markers (see the counterexample). -/
theorem numeric_coercion_total :
    coerceNum "1,234.5" = 1234.5 ∧ coerceNum "" = 0 ∧
    coerceNum "$1,000" = 1000 ∧ coerceNum "(1)" = 1 ∧
    (∀ s : String, pyFloatQ (stripNumeric s) = none → coerceNum s = 0) := by
  refine ⟨?_, rfl, ?_, ?_, ?_⟩
  · rw [show coerceNum "1,234.5" = fracVal ['1', '2', '3', '4'] ['5'] from rfl,
        fracVal,
        show digitsToNat ['1', '2', '3', '4'] = 1234 from by decide,
        show digitsToNat ['5'] = 5 from by decide]
    norm_num
  · rw [show coerceNum "$1,000" = ((digitsToNat ['1', '0', '0', '0'] : ℕ) : ℚ)
          from rfl,
        show digitsToNat ['1', '0', '0', '0'] = 1000 from by decide]
    norm_num
  · rw [show coerceNum "(1)" = ((digitsToNat ['1'] : ℕ) : ℚ) from rfl,
        show digitsToNat ['1'] = 1 from by decide]
    norm_num
  · intro s h
    unfold coerceNum
    rw [h]
    rfl

/-- Witness for C3: the unparseable string `"abc"` (stripped to `""`)
coerces to 0 without raising. -/
theorem numeric_coercion_total_witness :
    pyFloatQ (stripNumeric "abc") = none ∧ coerceNum "abc" = 0 :=
  ⟨rfl, numeric_coercion_total.2.2.2.2 "abc" rfl⟩

/-- Counterexample for C3: `"(1)"` does not coerce to 0 — the digit
survives the strip and the result is 1. -/
theorem footnote_marker_counterexample : coerceNum "(1)" ≠ 0 := by
  rw [show coerceNum "(1)" = ((digitsToNat ['1'] : ℕ) : ℚ) from rfl,
      show digitsToNat ['1'] = 1 from by decide]
  norm_num

/-- C4: within each year of the summary, multiple filings by the same
institution collapse to exactly one row — the first encountered after the
descending filing-date sort, whose filing date is maximal among that
institution's filings of the year (older same-year filings are discarded,
not averaged); concretely, same-institution 2020 filings of 200 and 300
shares produce a 2020 summary built from the later 300-share filing
only. -/
theorem yearly_dedup_latest_filing :
    (∀ (l : List HRec) (y : ℕ) (inst : String),
      (∃ h ∈ l, yearOfRec h = some y ∧ h.institution_name = inst) →
      ((latestPerInstitution l y).countP
          (fun r => r.institution_name == inst) = 1 ∧
       ∀ r ∈ latestPerInstitution l y, r.institution_name = inst →
         r ∈ l ∧ yearOfRec r = some y ∧
           ∀ h ∈ l, yearOfRec h = some y → h.institution_name = inst →
             strLE h.filing_date r.filing_date)) ∧
    createHistoricalSummary [hOld, hNew] "NVDA" =
      [mkYearSummary 2020 "NVDA" [hNew]] := by
  constructor
  · rintro l y inst ⟨h0, h0mem, h0year, h0name⟩
    have hFmem : ∀ x : HRec,
        x ∈ (sortHoldingsByDateDesc l).filter
            (fun h => yearOfRec h == some y) ↔
          (x ∈ l ∧ yearOfRec x = some y) := by
      intro x
      rw [List.mem_filter, mem_sortHoldings]
      simp
    constructor
    · show (dedupAux []
          ((sortHoldingsByDateDesc l).filter
            (fun h => yearOfRec h == some y))).countP
          (fun r => r.institution_name == inst) = 1
      rw [countP_dedupAux]
      have hex : ∃ x ∈ sortHoldingsByDateDesc l,
          yearOfRec x = some y ∧ x.institution_name = inst :=
        ⟨h0, (mem_sortHoldings l h0).mpr h0mem, h0year, h0name⟩
      simp [hex]
    · intro r hr hrname
      have hr2 : r ∈ dedupAux []
          ((sortHoldingsByDateDesc l).filter
            (fun h => yearOfRec h == some y)) := hr
      have hrF := mem_of_mem_dedupAux _ _ _ hr2
      obtain ⟨_, hmax⟩ := dedupAux_not_seen_and_latest _ [] r
        (latestPerInstitution_pairwise l y) hr2
      obtain ⟨hrl, hry⟩ := (hFmem r).mp hrF
      refine ⟨hrl, hry, ?_⟩
      intro h hl hy hname
      exact hmax h ((hFmem h).mpr ⟨hl, hy⟩) (by rw [hname, hrname])
  · rfl

/-- Witness for C4: with two same-institution 2020 filings, the
deduplicated 2020 frame has exactly one Berkshire row. -/
theorem yearly_dedup_latest_filing_witness :
    (latestPerInstitution [hOld, hNew] 2020).countP
        (fun r => r.institution_name == "Berkshire Hathaway Inc") = 1 :=
  (yearly_dedup_latest_filing.1 [hOld, hNew] 2020 "Berkshire Hathaway Inc"
    ⟨hNew, List.mem_cons_of_mem _ (List.mem_cons_self _ _), rfl, rfl⟩).1

end TradeTitan
